import Mathlib

/-!
Verification of the ABM-Mesa repository: a shallow embedding of the two
agent-based models (the "accidental millionaire" stock-predictor model and
the random-travel model) together with proofs of the specified properties.

Monetary quantities (`earnings`, `stock_price`, `pool`), which the Python
source stores as floats, are embedded as exact rationals (`ℚ`); random draws
(`np.random.binomial(1, p)`, `random.choice`, `np.random.randint`) are
embedded as explicit inputs supplied to the step functions, so that each
theorem quantifies over all possible draws.
-/

namespace ABM

/-! ## Stock-predictor model ("Accidental millionaire" notebook) -/

/-- The `StockPredictor` agent: `unique_id`, `earnings` (starts at `0.0`)
and `guess` (`None` until the first activation, then a Bernoulli draw). -/
structure StockPredictor where
  unique_id : ℕ
  earnings : ℚ
  guess : Option Bool
deriving DecidableEq, Repr

/-- `StockPredictor.__init__`: `earnings = 0.0`, `guess = None`. -/
def StockPredictor.init (unique_id : ℕ) : StockPredictor :=
  { unique_id := unique_id, earnings := 0, guess := none }

/-- `StockPredictor.step`: `self.guess = np.random.binomial(1, 0.5)` (the
fresh Bernoulli draw is the explicit argument `draw`) and
`self.earnings -= self.model.stock_price`. -/
def StockPredictor.step (a : StockPredictor) (draw : Bool) (stock_price : ℚ) :
    StockPredictor :=
  { a with guess := some draw, earnings := a.earnings - stock_price }

/-- The `StockPredicterModel` state: `number_agents`, `stock_price`, `pool`,
`stock_market` (`None` until the first step) and the scheduler's agent list. -/
structure StockPredicterModel where
  number_agents : ℕ
  stock_price : ℚ
  pool : ℚ
  stock_market : Option Bool
  agents : List StockPredictor
deriving DecidableEq, Repr

/-- `StockPredicterModel.__init__(self, N)`: `number_agents = N`,
`stock_price = 1.0`, `pool = 0.0`, `stock_market = None`, and one
`StockPredictor(i, self)` added to the schedule for each `i in range(N)`. -/
def StockPredicterModel.init (N : ℕ) : StockPredicterModel :=
  { number_agents := N
    stock_price := 1
    pool := 0
    stock_market := none
    agents := (List.range N).map StockPredictor.init }

/-- `RandomActivation.step` as it acts on the stock-predictor agents: every
agent is activated exactly once, agent `i` of the list receiving the fresh
Bernoulli draw `draws i`.  (The randomized activation order only permutes
which draw of the underlying generator reaches which agent; since the
theorems quantify over all draw assignments, indexing draws by list
position is a faithful embedding.) -/
def RandomActivation.run (stock_price : ℚ) (draws : ℕ → Bool) :
    List StockPredictor → List StockPredictor
  | [] => []
  | a :: rest =>
      a.step (draws 0) stock_price ::
        RandomActivation.run stock_price (fun i => draws (i + 1)) rest

/-- `StockPredicterModel._count_correct_agents`: the number of scheduled
agents with `agent.guess == self.stock_market`. -/
def StockPredicterModel.count_correct_agents (m : StockPredicterModel) : ℕ :=
  (m.agents.filter (fun a => a.guess = m.stock_market)).length

/-- The `pool_share` local of `StockPredicterModel._payout`:
`self.pool / number_correct if number_correct > 0 else 0.0`. -/
def StockPredicterModel.pool_share (m : StockPredicterModel) : ℚ :=
  if m.count_correct_agents > 0 then m.pool / m.count_correct_agents else 0

/-- `StockPredicterModel._payout`: every agent with
`agent.guess == self.stock_market` gets `agent.earnings += pool_share`. -/
def StockPredicterModel.payout (m : StockPredicterModel) : StockPredicterModel :=
  { m with
    agents := m.agents.map (fun a =>
      if a.guess = m.stock_market then
        { a with earnings := a.earnings + m.pool_share }
      else a) }

/-- The state of `StockPredicterModel.step` just after `self.schedule.step()`
(pool recomputed, fresh market outcome drawn, all agents activated) and
just before `self._payout()`. -/
def StockPredicterModel.afterActivation (m : StockPredicterModel)
    (market : Bool) (draws : ℕ → Bool) : StockPredicterModel :=
  { m with
    pool := (m.number_agents : ℚ) * m.stock_price
    stock_market := some market
    agents := RandomActivation.run m.stock_price draws m.agents }

/-- `StockPredicterModel.step`: `self.pool = self.number_agents *
self.stock_price`; `self.stock_market = np.random.binomial(1, 0.5)` (the
argument `market`); `self.schedule.step()`; `self._payout()`. -/
def StockPredicterModel.step (m : StockPredicterModel)
    (market : Bool) (draws : ℕ → Bool) : StockPredicterModel :=
  (m.afterActivation market draws).payout

/-- Total earnings of a list of agents. -/
def sumEarnings (l : List StockPredictor) : ℚ :=
  (l.map StockPredictor.earnings).sum

/-! ### Helper lemmas for the stock-predictor model -/

lemma zip_map_pair {α : Type} (f : α → α) :
    ∀ (l : List α), ∀ q ∈ l.zip (l.map f), q.2 = f q.1 := by
  intro l
  induction l with
  | nil => intro q hq; simp at hq
  | cons a rest ih =>
      intro q hq
      simp only [List.map_cons, List.zip_cons_cons, List.mem_cons] at hq
      rcases hq with h | h
      · subst h; rfl
      · exact ih q h

lemma zip_run_pair (price : ℚ) :
    ∀ (l : List StockPredictor) (draws : ℕ → Bool),
      ∀ q ∈ l.zip (RandomActivation.run price draws l),
        q.2.earnings = q.1.earnings - price ∧ q.2.guess = some (draws 0) ∨
        q.2.earnings = q.1.earnings - price := by
  intro l
  induction l with
  | nil => intro draws q hq; simp [RandomActivation.run] at hq
  | cons a rest ih =>
      intro draws q hq
      simp only [RandomActivation.run, List.zip_cons_cons, List.mem_cons] at hq
      rcases hq with h | h
      · subst h; exact Or.inl ⟨rfl, rfl⟩
      · exact Or.inr ((ih (fun i => draws (i + 1)) q h).elim (fun h => h.1) id)

lemma zip_run_earnings (price : ℚ) (l : List StockPredictor) (draws : ℕ → Bool) :
    ∀ q ∈ l.zip (RandomActivation.run price draws l),
      q.2.earnings = q.1.earnings - price := by
  intro q hq
  exact (zip_run_pair price l draws q hq).elim (fun h => h.1) id

lemma run_length (price : ℚ) :
    ∀ (l : List StockPredictor) (draws : ℕ → Bool),
      (RandomActivation.run price draws l).length = l.length := by
  intro l
  induction l with
  | nil => intro draws; rfl
  | cons a rest ih => intro draws; simp [RandomActivation.run, ih]

lemma sumEarnings_cons (a : StockPredictor) (l : List StockPredictor) :
    sumEarnings (a :: l) = a.earnings + sumEarnings l := by
  simp [sumEarnings]

lemma sumEarnings_map_share (o : Option Bool) (s : ℚ) :
    ∀ l : List StockPredictor,
      sumEarnings (l.map (fun a =>
          if a.guess = o then { a with earnings := a.earnings + s } else a))
        = sumEarnings l + s * (l.filter (fun a => a.guess = o)).length := by
  intro l
  induction l with
  | nil => simp [sumEarnings]
  | cons a rest ih =>
      by_cases h : a.guess = o
      · simp only [List.map_cons, List.filter_cons, h, decide_eq_true_eq,
          if_true, ite_true, sumEarnings_cons, List.length_cons, ih]
        push_cast
        ring
      · simp only [List.map_cons, List.filter_cons, h, decide_eq_true_eq,
          if_false, ite_false, sumEarnings_cons, List.length_cons, ih,
          decide_eq_false, not_false_iff]
        push_cast
        ring

lemma payout_agents (m : StockPredicterModel) :
    m.payout.agents = m.agents.map (fun a =>
      if a.guess = m.stock_market then
        { a with earnings := a.earnings + m.pool_share }
      else a) := rfl

lemma pool_share_of_pos (m : StockPredicterModel)
    (h : 0 < m.count_correct_agents) :
    m.pool_share = m.pool / m.count_correct_agents := by
  simp [StockPredicterModel.pool_share, h]

lemma map_eq_self {α : Type} (f : α → α) :
    ∀ l : List α, (∀ a ∈ l, f a = a) → l.map f = l := by
  intro l
  induction l with
  | nil => intro _; rfl
  | cons a rest ih =>
      intro h
      rw [List.map_cons, h a (by simp), ih (fun b hb => h b (by simp [hb]))]

/-! ### Stock-predictor claim theorems -/

/-- C1: in any step of the stock-predictor model in which at least one
agent's guess equals the market outcome, each correct agent's earnings
increases by `pool / count` (with `pool = number_agents * stock_price`
recomputed at the start of the step and `count` the number of correct
agents), and the total earnings increase distributed by the payout pass is
exactly `pool`. -/
theorem stock_pool_conservation (m : StockPredicterModel) (market : Bool)
    (draws : ℕ → Bool)
    (h : 0 < (m.afterActivation market draws).count_correct_agents) :
    (∀ q ∈ (m.afterActivation market draws).agents.zip
        (m.step market draws).agents,
        q.1.guess = some market →
          q.2.earnings = q.1.earnings
            + ((m.number_agents : ℚ) * m.stock_price)
              / ((m.afterActivation market draws).count_correct_agents : ℚ))
    ∧ sumEarnings (m.step market draws).agents
        = sumEarnings (m.afterActivation market draws).agents
          + (m.number_agents : ℚ) * m.stock_price := by
  have hpool : (m.afterActivation market draws).pool
      = (m.number_agents : ℚ) * m.stock_price := rfl
  have hmkt : (m.afterActivation market draws).stock_market = some market := rfl
  have hshare := pool_share_of_pos (m.afterActivation market draws) h
  have hcne : ((m.afterActivation market draws).count_correct_agents : ℚ) ≠ 0 :=
    Nat.cast_ne_zero.mpr h.ne'
  constructor
  · intro q hq hg
    have hstep : (m.step market draws).agents
        = (m.afterActivation market draws).agents.map (fun a =>
            if a.guess = (m.afterActivation market draws).stock_market then
              { a with earnings := a.earnings
                  + (m.afterActivation market draws).pool_share }
            else a) := rfl
    rw [hstep] at hq
    have h2 := zip_map_pair _ _ q hq
    rw [h2]
    rw [if_pos (by rw [hmkt]; exact hg)]
    show q.1.earnings + (m.afterActivation market draws).pool_share = _
    rw [hshare, hpool]
  · show sumEarnings ((m.afterActivation market draws).payout).agents = _
    rw [payout_agents, sumEarnings_map_share]
    have hcount : (((m.afterActivation market draws).agents.filter
        (fun a => a.guess = (m.afterActivation market draws).stock_market)).length : ℚ)
        = ((m.afterActivation market draws).count_correct_agents : ℚ) := rfl
    rw [hcount, hshare, hpool, div_mul_cancel₀ _ hcne]

/-- Witness for C1: two agents, both guessing `1` with market outcome `1`:
the payout pass distributes exactly `pool = 2 * 1`. -/
theorem stock_pool_conservation_witness :
    0 < ((StockPredicterModel.init 2).afterActivation true
          (fun _ => true)).count_correct_agents
    ∧ sumEarnings ((StockPredicterModel.init 2).step true (fun _ => true)).agents
        = sumEarnings (((StockPredicterModel.init 2)).afterActivation true
            (fun _ => true)).agents
          + ((StockPredicterModel.init 2).number_agents : ℚ)
            * (StockPredicterModel.init 2).stock_price :=
  ⟨by decide,
    (stock_pool_conservation (StockPredicterModel.init 2) true (fun _ => true)
      (by decide)).2⟩

/-- C2: in any step of the stock-predictor model in which no agent's guess
equals the market outcome, the payout pass is a no-op (the guarded
`pool_share` computation never divides by the zero count), so no agent's
earnings increases, while every agent's earnings has decreased by
`stock_price` during the activation phase. -/
theorem stock_zero_correct (m : StockPredicterModel) (market : Bool)
    (draws : ℕ → Bool)
    (h : (m.afterActivation market draws).count_correct_agents = 0) :
    (m.step market draws).agents = (m.afterActivation market draws).agents
    ∧ ∀ q ∈ m.agents.zip ((m.step market draws).agents),
        q.2.earnings = q.1.earnings - m.stock_price := by
  have hnone : ∀ a ∈ (m.afterActivation market draws).agents,
      ¬ (a.guess = (m.afterActivation market draws).stock_market) := by
    unfold StockPredicterModel.count_correct_agents at h
    rw [List.length_eq_zero] at h
    intro a ha
    intro hg
    have := List.filter_eq_nil_iff.mp h a ha
    simp [hg] at this
  have hagents : (m.step market draws).agents
      = (m.afterActivation market draws).agents := by
    show ((m.afterActivation market draws).payout).agents = _
    rw [payout_agents]
    exact map_eq_self _ _ (fun a ha => if_neg (hnone a ha))
  refine ⟨hagents, ?_⟩
  rw [hagents]
  exact zip_run_earnings m.stock_price m.agents draws

/-- Witness for C2: one agent guessing `0` with market outcome `1`: the
payout pass changes nothing. -/
theorem stock_zero_correct_witness :
    ((StockPredicterModel.init 1).afterActivation true
        (fun _ => false)).count_correct_agents = 0
    ∧ ((StockPredicterModel.init 1).step true (fun _ => false)).agents
        = ((StockPredicterModel.init 1).afterActivation true
            (fun _ => false)).agents :=
  ⟨by decide,
    (stock_zero_correct (StockPredicterModel.init 1) true (fun _ => false)
      (by decide)).1⟩

/-- C7 counterexample: the source constructor `StockPredicterModel.__init__`
takes only the agent count; the unit price is hard-coded to `1.0` and is not
configurable — no construction yields a model whose `stock_price` is `2`. -/
theorem stock_model_price_not_configurable :
    ¬ ∃ N : ℕ, (StockPredicterModel.init N).stock_price = 2 := by
  rintro ⟨N, hN⟩
  have h1 : (1 : ℚ) = 2 := hN
  norm_num at h1

/-- C7 (amended): construction from agent count `N` alone creates exactly
`N` agents with unique identifiers `0..N-1`, each with earnings `0` and no
recorded guess; `stock_price` is fixed at `1`, the pool starts at `0` and no
market outcome is drawn. -/
theorem stock_model_init_state (N : ℕ) :
    (StockPredicterModel.init N).number_agents = N
    ∧ (StockPredicterModel.init N).stock_price = 1
    ∧ (StockPredicterModel.init N).pool = 0
    ∧ (StockPredicterModel.init N).stock_market = none
    ∧ (StockPredicterModel.init N).agents.map StockPredictor.unique_id
        = List.range N
    ∧ ((StockPredicterModel.init N).agents.map StockPredictor.unique_id).Nodup
    ∧ ∀ a ∈ (StockPredicterModel.init N).agents,
        a.earnings = 0 ∧ a.guess = none := by
  have hmap : (StockPredicterModel.init N).agents.map StockPredictor.unique_id
      = List.range N := by
    show ((List.range N).map StockPredictor.init).map StockPredictor.unique_id
        = List.range N
    rw [List.map_map]
    have hcomp : (StockPredictor.unique_id ∘ StockPredictor.init) = id := rfl
    rw [hcomp, List.map_id]
  refine ⟨rfl, rfl, rfl, rfl, hmap, hmap ▸ List.nodup_range N, ?_⟩
  intro a ha
  have : a ∈ (List.range N).map StockPredictor.init := ha
  rw [List.mem_map] at this
  obtain ⟨i, _, rfl⟩ := this
  exact ⟨rfl, rfl⟩

/-- Witness for C7 (amended) at `N = 2` and the concrete first agent. -/
theorem stock_model_init_state_witness :
    (StockPredicterModel.init 2).stock_price = 1
    ∧ (StockPredictor.init 0).earnings = 0
    ∧ (StockPredictor.init 0).guess = none :=
  ⟨(stock_model_init_state 2).2.1,
    (stock_model_init_state 2).2.2.2.2.2.2 (StockPredictor.init 0) (by decide)⟩

/-- C8: every activation of a stock-predictor agent records the fresh
Bernoulli draw as its guess (independently of any previous state) and
unconditionally subtracts the model's current unit price from its
earnings. -/
theorem stock_predictor_step_contract :
    ∀ (a b : StockPredictor) (draw : Bool) (price : ℚ),
      (a.step draw price).guess = some draw
      ∧ (a.step draw price).earnings = a.earnings - price
      ∧ (a.step draw price).guess = (b.step draw price).guess :=
  fun _ _ _ _ => ⟨rfl, rfl, rfl⟩

/-- C9: the payout pass changes only the earnings of correct agents — the
pool field, the agent count, the unit price, the market outcome and all
identifiers/guesses are untouched, incorrect agents are untouched; after a
full step the pool field still holds `number_agents * stock_price`, and a
subsequent step simply overwrites it with the same recomputed value (nothing
is banked). -/
theorem stock_payout_frame (m : StockPredicterModel) (market market2 : Bool)
    (draws draws2 : ℕ → Bool) :
    m.payout.pool = m.pool
    ∧ m.payout.number_agents = m.number_agents
    ∧ m.payout.stock_price = m.stock_price
    ∧ m.payout.stock_market = m.stock_market
    ∧ (∀ q ∈ m.agents.zip m.payout.agents,
        q.2.unique_id = q.1.unique_id
        ∧ q.2.guess = q.1.guess
        ∧ (¬ q.1.guess = m.stock_market → q.2 = q.1))
    ∧ (m.step market draws).pool = (m.number_agents : ℚ) * m.stock_price
    ∧ (m.step market draws).number_agents = m.number_agents
    ∧ (m.step market draws).stock_price = m.stock_price
    ∧ ((m.step market draws).step market2 draws2).pool
        = (m.number_agents : ℚ) * m.stock_price := by
  refine ⟨rfl, rfl, rfl, rfl, ?_, rfl, rfl, rfl, rfl⟩
  intro q hq
  rw [payout_agents] at hq
  have h2 := zip_map_pair _ _ q hq
  rw [h2]
  by_cases hg : q.1.guess = m.stock_market
  · rw [if_pos hg]
    exact ⟨rfl, rfl, fun hc => absurd hg hc⟩
  · rw [if_neg hg]
    exact ⟨rfl, rfl, fun _ => rfl⟩

/-- Witness for C9: a one-agent model whose agent guessed wrong — the payout
pass leaves the agent and the pool untouched. -/
theorem stock_payout_frame_witness :
    (StockPredicterModel.mk 1 1 0 (some true)
        [StockPredictor.mk 0 5 (some false)]).payout.pool
      = (StockPredicterModel.mk 1 1 0 (some true)
          [StockPredictor.mk 0 5 (some false)]).pool
    ∧ (StockPredictor.mk 0 5 (some false), StockPredictor.mk 0 5 (some false)).2
      = (StockPredictor.mk 0 5 (some false), StockPredictor.mk 0 5 (some false)).1 :=
  ⟨(stock_payout_frame (StockPredicterModel.mk 1 1 0 (some true)
      [StockPredictor.mk 0 5 (some false)]) true true (fun _ => false)
      (fun _ => false)).1,
    ((stock_payout_frame (StockPredicterModel.mk 1 1 0 (some true)
        [StockPredictor.mk 0 5 (some false)]) true true (fun _ => false)
        (fun _ => false)).2.2.2.2.1
      (StockPredictor.mk 0 5 (some false), StockPredictor.mk 0 5 (some false))
      (by decide)).2.2 (by decide)⟩

/-! ## Random-travel model -/

/-- Modelled from the spec: `mesa.space.MultiGrid.get_neighborhood(pos,
moore=True, include_center=False)` on a toroidal `W × H` grid — the source
repository uses the external Mesa grid, so the geometry is taken from the
spec: the 8 horizontally, vertically and diagonally adjacent cells, with
coordinates wrapping modulo the grid size. -/
def get_neighborhood (W H : ℤ) (p : ℤ × ℤ) : List (ℤ × ℤ) :=
  ([(-1, -1), (0, -1), (1, -1), (-1, 0), (1, 0), (-1, 1), (0, 1), (1, 1)] :
      List (ℤ × ℤ)).map
    (fun o => ((p.1 + o.1) % W, (p.2 + o.2) % H))

/-- The `Traveler` agent: `travel_prob` is fixed at creation; `pos` is the
position the grid records on the agent. -/
structure Traveler where
  unique_id : ℕ
  travel_prob : ℚ
  pos : ℤ × ℤ
deriving DecidableEq, Repr

/-- `Traveler._travel`: `possible_steps = get_neighborhood(...)`;
`new_position = random.choice(possible_steps)` — the uniform index into the
8-entry neighborhood list is the explicit argument `k` (reduced mod the list
length exactly as `random.choice` draws an index in `[0, len)`; the `getD`
default is never reached since the list is never empty);
`move_agent(self, new_position)`. -/
def Traveler.travel (W H : ℤ) (a : Traveler) (k : ℕ) : Traveler :=
  let possible_steps := get_neighborhood W H a.pos
  { a with pos := possible_steps.getD (k % possible_steps.length) a.pos }

/-- `Traveler.move`: `if np.random.binomial(1, self.travel_prob):
self._travel()` — the Bernoulli draw is the explicit argument `draw`. -/
def Traveler.move (W H : ℤ) (a : Traveler) (draw : Bool) (k : ℕ) : Traveler :=
  if draw then a.travel W H k else a

/-- `Traveler.step`: `self.move()`. -/
def Traveler.step (W H : ℤ) (a : Traveler) (draw : Bool) (k : ℕ) : Traveler :=
  a.move W H draw k

/-- The `TravelModel` state: agent count, grid dimensions and the
scheduler's agent list. -/
structure TravelModel where
  number_agents : ℕ
  width : ℤ
  height : ℤ
  agents : List Traveler
deriving DecidableEq, Repr

/-- `RandomActivation.step` as it acts on the travelers: every agent is
activated exactly once, agent `i` of the list receiving the Bernoulli draw
`draws i` and the neighbor-choice index `choices i`. -/
def TravelModel.stepAgents (W H : ℤ) (draws : ℕ → Bool) (choices : ℕ → ℕ) :
    List Traveler → List Traveler
  | [] => []
  | a :: rest =>
      a.step W H (draws 0) (choices 0) ::
        TravelModel.stepAgents W H (fun i => draws (i + 1))
          (fun i => choices (i + 1)) rest

/-- `TravelModel.step`: delegates entirely to `self.schedule.step()`. -/
def TravelModel.step (m : TravelModel) (draws : ℕ → Bool) (choices : ℕ → ℕ) :
    TravelModel :=
  { m with
    agents := TravelModel.stepAgents m.width m.height draws choices m.agents }

/-- `np.ceil(np.sqrt(N))`, the `initial_dim` of
`TravelModel._init_travelers`, as a natural number. -/
def ceilSqrt (N : ℕ) : ℕ :=
  if Nat.sqrt N * Nat.sqrt N = N then Nat.sqrt N else Nat.sqrt N + 1

/-- Lower bound of the coordinate draw
`np.random.randint(center - initial_dim, center + initial_dim)` in
`TravelModel._init_travelers`: `center = dim/2` is the exact value `dim/2`
(halves are exact in floating point) and numpy converts the float bound with
`int(...)`, truncation toward zero, so the bound is the zero-truncating
integer division `(dim - 2*⌈√N⌉).tdiv 2`. -/
def initLow (dim : ℕ) (N : ℕ) : ℤ :=
  Int.tdiv ((dim : ℤ) - 2 * ceilSqrt N) 2

/-- Upper (exclusive) bound of the same coordinate draw:
`int(dim/2 + ⌈√N⌉) = (dim + 2*⌈√N⌉).tdiv 2`. -/
def initHigh (dim : ℕ) (N : ℕ) : ℤ :=
  Int.tdiv ((dim : ℤ) + 2 * ceilSqrt N) 2

/-- The possible results of the `np.random.randint` draw for one initial
coordinate: numpy draws uniformly from the half-open interval
`[low, high)`. -/
@[reducible] def drawableInit (dim : ℕ) (N : ℕ) (x : ℤ) : Prop :=
  initLow dim N ≤ x ∧ x < initHigh dim N

lemma tdiv_two_nonneg (a : ℤ) (ha : 0 ≤ a) : Int.tdiv a 2 = a / 2 := by
  lift a to ℕ using ha
  rfl

lemma ceilSqrt_mul_self (n : ℕ) : ceilSqrt (n * n) = n := by
  unfold ceilSqrt
  rw [Nat.sqrt_eq]
  simp

lemma ceilSqrt_one : ceilSqrt 1 = 1 := by
  rw [show (1 : ℕ) = 1 * 1 by norm_num, ceilSqrt_mul_self]

lemma ceilSqrt_four : ceilSqrt 4 = 2 := by
  rw [show (4 : ℕ) = 2 * 2 by norm_num, ceilSqrt_mul_self]

lemma ceilSqrt_nine : ceilSqrt 9 = 3 := by
  rw [show (9 : ℕ) = 3 * 3 by norm_num, ceilSqrt_mul_self]

/-! ### Random-travel claim theorems -/

/-- C3: on every activation a traveler with Bernoulli draw `1` moves to the
uniformly chosen cell of the Moore neighborhood (toroidal wrap, center
excluded) of its current position, and with draw `0` stays put; in
particular, on a 10×10 toroidal grid with one agent at `(0,0)`,
`travel_probability = 1`, Bernoulli draw forced to `1` and the neighbor
choice forced to `(1,1)`, one model step puts the agent exactly at
`(1,1)`. -/
theorem traveler_step_contract :
    (∀ (W H : ℤ) (a : Traveler) (draw : Bool) (k : ℕ)
        (hk : k < (get_neighborhood W H a.pos).length),
        ((a.step W H draw k).pos
            = if draw then (get_neighborhood W H a.pos).get ⟨k, hk⟩ else a.pos)
        ∧ (draw = true →
            (a.step W H draw k).pos ∈ get_neighborhood W H a.pos)
        ∧ (a.step W H draw k).travel_prob = a.travel_prob
        ∧ (a.step W H draw k).unique_id = a.unique_id)
    ∧ ((TravelModel.mk 1 10 10 [Traveler.mk 0 1 (0, 0)]).step
          (fun _ => true) (fun _ => 7)).agents.map Traveler.pos = [(1, 1)] := by
  constructor
  · intro W H a draw k hk
    have hget : (get_neighborhood W H a.pos).getD
        (k % (get_neighborhood W H a.pos).length) a.pos
        = (get_neighborhood W H a.pos).get ⟨k, hk⟩ := by
      rw [Nat.mod_eq_of_lt hk, List.getD_eq_getElem _ _ hk]
      simp
    cases draw with
    | false => exact ⟨rfl, by simp, rfl, rfl⟩
    | true =>
        refine ⟨?_, ?_, rfl, rfl⟩
        · show (a.travel W H k).pos = _
          unfold Traveler.travel
          simpa using hget
        · intro _
          show (a.travel W H k).pos ∈ _
          unfold Traveler.travel
          simp only
          rw [hget]  -- may need adjustment
          exact List.get_mem _ _ hk
  · decide

/-- Witness for C3's general clause, at draw `0`: the position is
unchanged. -/
theorem traveler_step_contract_witness :
    0 < (get_neighborhood 10 10 (Traveler.mk 0 1 (0, 0)).pos).length
    ∧ ((Traveler.mk 0 1 (0, 0)).step 10 10 false 0).pos
        = (Traveler.mk 0 1 (0, 0)).pos :=
  ⟨by decide, by
    have h := (traveler_step_contract.1 10 10 (Traveler.mk 0 1 (0, 0)) false 0
      (by decide)).1
    simpa using h⟩

/-- C4 counterexample: with `N = 1` on a grid of width 10 the code draws the
initial x-coordinate uniformly from `[4, 6)` — two drawable values, an
interval of length `2 = 2⌈√1⌉` — whereas a square sub-region of side
`⌈√1⌉ = 1` admits exactly one. -/
theorem init_region_counterexample :
    drawableInit 10 1 4 ∧ drawableInit 10 1 5
    ∧ ceilSqrt 1 = 1
    ∧ initHigh 10 1 - initLow 10 1 ≠ (ceilSqrt 1 : ℤ) := by
  refine ⟨?_, ?_, ceilSqrt_one, ?_⟩ <;>
    simp only [drawableInit, initLow, initHigh, ceilSqrt_one] <;> decide

/-- C4 (amended): during construction each agent's initial x- and
y-coordinates are drawn uniformly from an interval of `2⌈√N⌉` consecutive
integers centered on the grid (center within one cell of `dim/2`), i.e. a
square sub-region of side `2⌈√N⌉`, not `⌈√N⌉` — provided the sub-region
fits (`2⌈√N⌉ ≤ dim`); agents therefore start clustered near the grid
center, not uniformly over the whole grid. -/
theorem init_region_side (dim N : ℕ) (h : 2 * ceilSqrt N ≤ dim) :
    initHigh dim N - initLow dim N = 2 * (ceilSqrt N : ℤ)
    ∧ (dim : ℤ) - 1 ≤ initLow dim N + initHigh dim N
    ∧ initLow dim N + initHigh dim N ≤ (dim : ℤ) := by
  have h2 : (2 : ℤ) * (ceilSqrt N : ℤ) ≤ (dim : ℤ) := by exact_mod_cast h
  have hlo : initLow dim N = ((dim : ℤ) - 2 * ceilSqrt N) / 2 := by
    unfold initLow
    exact tdiv_two_nonneg _ (by omega)
  have hhi : initHigh dim N = ((dim : ℤ) + 2 * ceilSqrt N) / 2 := by
    unfold initHigh
    exact tdiv_two_nonneg _ (by positivity)
  rw [hlo, hhi]
  refine ⟨?_, ?_, ?_⟩ <;> omega

/-- Witness for C4 (amended) at `N = 1`, `dim = 10`: the drawable interval
`[4, 6)` has length `2 = 2⌈√1⌉`. -/
theorem init_region_side_witness :
    2 * ceilSqrt 1 ≤ 10
    ∧ initHigh 10 1 - initLow 10 1 = 2 * (ceilSqrt 1 : ℤ) :=
  ⟨by rw [ceilSqrt_one]; decide, (init_region_side 10 1 (by rw [ceilSqrt_one]; decide)).1⟩

/-- C10: under the size precondition `⌈√N⌉ ≤ ⌊dim/2⌋` (for each dimension
separately), every coordinate the initial-placement `randint` can draw lies
inside the grid extent `[0, dim)`; and when the precondition fails the
construction can hand `place_agent` an out-of-bounds coordinate — concretely
for `N = 9` agents on a width-4 grid the coordinate `4` is drawable. -/
theorem init_in_bounds :
    (∀ (dim N : ℕ) (x : ℤ), ceilSqrt N ≤ dim / 2 → drawableInit dim N x →
        0 ≤ x ∧ x < (dim : ℤ))
    ∧ ¬ ceilSqrt 9 ≤ 4 / 2
    ∧ drawableInit 4 9 4
    ∧ ¬ ((4 : ℤ) < ((4 : ℕ) : ℤ)) := by
  refine ⟨?_, ?_, ?_, by decide⟩
  · intro dim N x hpre hx
    have h : 2 * ceilSqrt N ≤ dim := by omega
    have h2 : (2 : ℤ) * (ceilSqrt N : ℤ) ≤ (dim : ℤ) := by exact_mod_cast h
    have hlo : initLow dim N = ((dim : ℤ) - 2 * ceilSqrt N) / 2 := by
      unfold initLow
      exact tdiv_two_nonneg _ (by omega)
    have hhi : initHigh dim N = ((dim : ℤ) + 2 * ceilSqrt N) / 2 := by
      unfold initHigh
      exact tdiv_two_nonneg _ (by positivity)
    obtain ⟨hx1, hx2⟩ := hx
    rw [hlo] at hx1
    rw [hhi] at hx2
    omega
  · rw [ceilSqrt_nine]; decide
  · simp only [drawableInit, initLow, initHigh, ceilSqrt_nine]; decide

/-- Witness for C10's universal clause at `N = 4` agents on a width-10
grid: the precondition holds and the drawable coordinate `4` is in
bounds. -/
theorem init_in_bounds_witness :
    ceilSqrt 4 ≤ 10 / 2
    ∧ drawableInit 10 4 4
    ∧ 0 ≤ (4 : ℤ) ∧ (4 : ℤ) < ((10 : ℕ) : ℤ) := by
  have hpre : ceilSqrt 4 ≤ 10 / 2 := by rw [ceilSqrt_four]; decide
  have hdraw : drawableInit 10 4 4 := by
    simp only [drawableInit, initLow, initHigh, ceilSqrt_four]; decide
  exact ⟨hpre, hdraw, init_in_bounds.1 10 4 4 hpre hdraw⟩

/-! ## Grid state and bidirectional consistency (C5)

The grid itself lives in the external `mesa.space.MultiGrid`; its state and
the `place_agent`/`move_agent` operations used by
`TravelModel._init_travelers` and `Traveler._travel` are modelled from the
spec. -/

/-- Modelled from the spec: the `MultiGrid` state — width, height, a set of
occupant identifiers per cell (multi-occupancy) and each agent's recorded
position (`agent.pos`, `None` before placement). -/
structure MultiGrid where
  width : ℤ
  height : ℤ
  occupants : ℤ × ℤ → Finset ℕ
  posMap : ℕ → Option (ℤ × ℤ)

/-- Modelled from the spec: `place_agent` adds the agent to the cell's
occupant set and records the agent's position. -/
def MultiGrid.place_agent (g : MultiGrid) (a : ℕ) (p : ℤ × ℤ) : MultiGrid :=
  { g with
    occupants := Function.update g.occupants p (insert a (g.occupants p))
    posMap := Function.update g.posMap a (some p) }

/-- Modelled from the spec: `move_agent` removes the agent from its current
cell's occupant set, inserts it into the new cell's occupant set and updates
the recorded position.  (Moving a never-placed agent is an error in the
source; here it leaves the state unchanged — well-formed sequences never do
it.) -/
def MultiGrid.move_agent (g : MultiGrid) (a : ℕ) (q : ℤ × ℤ) : MultiGrid :=
  match g.posMap a with
  | none => g
  | some p =>
      let occ1 := Function.update g.occupants p ((g.occupants p).erase a)
      { g with
        occupants := Function.update occ1 q (insert a (occ1 q))
        posMap := Function.update g.posMap a (some q) }

/-- A grid operation performed by the random-walk model: an initial
placement (`_init_travelers`) or a move (`Traveler._travel`). -/
inductive GridOp where
  | place (a : ℕ) (p : ℤ × ℤ)
  | move (a : ℕ) (p : ℤ × ℤ)

def MultiGrid.applyOp (g : MultiGrid) : GridOp → MultiGrid
  | .place a p => g.place_agent a p
  | .move a p => g.move_agent a p

def MultiGrid.applyOps (g : MultiGrid) : List GridOp → MultiGrid
  | [] => g
  | op :: rest => (g.applyOp op).applyOps rest

/-- Well-formed operation: agents are placed only once (the source never
re-places an agent) and only placed agents move. -/
def MultiGrid.wfOp (g : MultiGrid) : GridOp → Prop
  | .place a _ => g.posMap a = none
  | .move a _ => g.posMap a ≠ none

def MultiGrid.wfOps (g : MultiGrid) : List GridOp → Prop
  | [] => True
  | op :: rest => g.wfOp op ∧ (g.applyOp op).wfOps rest

/-- Bidirectional consistency: an agent's recorded position is `p` exactly
when the agent is in the occupant set of cell `p` — so every placed agent is
in the cell it records and in no other cell, and an unplaced agent is in no
cell. -/
def MultiGrid.consistent (g : MultiGrid) : Prop :=
  ∀ a p, g.posMap a = some p ↔ a ∈ g.occupants p

/-- The grid as `MultiGrid(width, height, True)` constructs it: all cells
empty, no agent placed. -/
def emptyGrid (W H : ℤ) : MultiGrid :=
  { width := W, height := H, occupants := fun _ => ∅, posMap := fun _ => none }

lemma consistent_place (g : MultiGrid) (hg : g.consistent) (a : ℕ)
    (p : ℤ × ℤ) (ha : g.posMap a = none) : (g.place_agent a p).consistent := by
  intro b q
  simp only [MultiGrid.place_agent, Function.update_apply]
  by_cases hb : b = a
  · subst hb
    simp only [if_pos rfl]
    by_cases hq : q = p
    · subst hq
      simp
    · rw [if_neg hq]
      constructor
      · intro hpq
        exact absurd (Option.some_inj.mp hpq).symm hq
      · intro hbq
        have := (hg b q).mpr hbq
        rw [ha] at this
        exact absurd this (by simp)
  · rw [if_neg hb]
    by_cases hq : q = p
    · subst hq
      rw [if_pos rfl, Finset.mem_insert]
      constructor
      · intro hpq
        exact Or.inr ((hg b q).mp hpq)
      · intro hor
        rcases hor with hba | hbq
        · exact absurd hba hb
        · exact (hg b q).mpr hbq
    · rw [if_neg hq]
      exact hg b q

lemma consistent_move (g : MultiGrid) (hg : g.consistent) (a : ℕ)
    (q : ℤ × ℤ) (ha : g.posMap a ≠ none) : (g.move_agent a q).consistent := by
  obtain ⟨p, hp⟩ := Option.ne_none_iff_exists.mp ha
  intro b r
  unfold MultiGrid.move_agent
  rw [← hp]
  simp only [Function.update_apply]
  by_cases hb : b = a
  · subst hb
    simp only [if_pos rfl]
    constructor
    · intro hqr
      have hrq : r = q := (Option.some_inj.mp hqr).symm
      subst hrq
      simp
    · intro hbr
      by_cases hr : r = q
      · subst hr; rfl
      · rw [if_neg hr] at hbr
        by_cases hrp : r = p
        · subst hrp
          rw [if_pos rfl] at hbr
          exact absurd (Finset.mem_erase.mp hbr).1 (by simp)
        · rw [if_neg hrp] at hbr
          have := (hg b r).mpr hbr
          rw [← hp] at this
          exact absurd (Option.some_inj.mp this).symm hrp
  · rw [if_neg hb]
    by_cases hr : r = q
    · subst hr
      rw [if_pos rfl, Finset.mem_insert]
      by_cases hrp : r = p
      · subst hrp
        rw [if_pos rfl, Finset.mem_erase]
        constructor
        · intro hbr
          exact Or.inr ⟨hb, (hg b r).mp hbr⟩
        · intro hor
          rcases hor with hba | ⟨_, hbr⟩
          · exact absurd hba hb
          · exact (hg b r).mpr hbr
      · rw [if_neg hrp]
        constructor
        · intro hbr
          exact Or.inr ((hg b r).mp hbr)
        · intro hor
          rcases hor with hba | hbr
          · exact absurd hba hb
          · exact (hg b r).mpr hbr
    · rw [if_neg hr]
      by_cases hrp : r = p
      · subst hrp
        rw [if_pos rfl, Finset.mem_erase]
        constructor
        · intro hbr
          exact ⟨hb, (hg b r).mp hbr⟩
        · intro hpair
          exact (hg b r).mpr hpair.2
      · rw [if_neg hrp]
        exact hg b r

lemma consistent_applyOp (g : MultiGrid) (hg : g.consistent) (op : GridOp)
    (hop : g.wfOp op) : (g.applyOp op).consistent := by
  cases op with
  | place a p => exact consistent_place g hg a p hop
  | move a p => exact consistent_move g hg a p hop

lemma consistent_applyOps :
    ∀ (ops : List GridOp) (g : MultiGrid), g.consistent → g.wfOps ops →
      (g.applyOps ops).consistent := by
  intro ops
  induction ops with
  | nil => intro g hg _; exact hg
  | cons op rest ih =>
      intro g hg hwf
      exact ih (g.applyOp op) (consistent_applyOp g hg op hwf.1) hwf.2

lemma emptyGrid_consistent (W H : ℤ) : (emptyGrid W H).consistent := by
  intro a p
  simp [emptyGrid]

/-- C5: after any well-formed sequence of placements and moves starting from
the freshly constructed grid — which is the shape of every run of the
random-walk model: initial placement of each agent once at construction,
then only moves of placed agents — the grid is bidirectionally consistent:
each placed agent has exactly one recorded position, is a member of that
cell's occupant set, and of no other cell's occupant set. -/
theorem grid_consistency (W H : ℤ) (ops : List GridOp)
    (h : (emptyGrid W H).wfOps ops) :
    ((emptyGrid W H).applyOps ops).consistent :=
  consistent_applyOps ops (emptyGrid W H) (emptyGrid_consistent W H) h

/-- Witness for C5: placing two agents and moving one keeps the grid
consistent. -/
theorem grid_consistency_witness :
    (emptyGrid 10 10).wfOps
      [GridOp.place 0 (0, 0), GridOp.move 0 (1, 1), GridOp.place 1 (0, 0)]
    ∧ ((emptyGrid 10 10).applyOps
        [GridOp.place 0 (0, 0), GridOp.move 0 (1, 1),
          GridOp.place 1 (0, 0)]).consistent := by
  have hwf : (emptyGrid 10 10).wfOps
      [GridOp.place 0 (0, 0), GridOp.move 0 (1, 1), GridOp.place 1 (0, 0)] := by
    refine ⟨rfl, ?_, ?_, trivial⟩
    · show ((emptyGrid 10 10).applyOp (GridOp.place 0 (0, 0))).posMap 0 ≠ none
      simp [emptyGrid, MultiGrid.applyOp, MultiGrid.place_agent,
        Function.update_apply]
    · show (((emptyGrid 10 10).applyOp (GridOp.place 0 (0, 0))).applyOp
          (GridOp.move 0 (1, 1))).posMap 1 = none
      simp [emptyGrid, MultiGrid.applyOp, MultiGrid.place_agent,
        MultiGrid.move_agent, Function.update_apply]
  exact ⟨hwf, grid_consistency 10 10 _ hwf⟩

/-! ## Scheduler determinism (C6)

The randomness of both models comes from the seedable generators of
`numpy.random` and `random` (external to the repository); the spec requires
only that the generator be a seedable pure function.  It is modelled by a
linear congruential generator, and a full deterministic run of each model —
per-step shuffle of the activation order, market/Bernoulli draws and
neighbor choices all taken from the seed-derived stream — is defined on
top of it. -/

/-- Modelled from the spec: one step of a seedable pseudo-random generator
(a linear congruential generator). -/
def lcg (s : ℕ) : ℕ := (1664525 * s + 1013904223) % 4294967296

/-- The `t`-th value of the generator stream determined by `seed`. -/
def genVal (seed : ℕ) : ℕ → ℕ
  | 0 => lcg seed
  | t + 1 => lcg (genVal seed t)

/-- A raw generator value as a Bernoulli outcome. -/
def natToBool (n : ℕ) : Bool := n % 2 = 1

/-- Modelled from the spec: the scheduler's fresh random permutation of the
agent indices, drawn each step from the generator stream (Fisher-Yates
style: repeatedly select a remaining index uniformly). -/
def shuffleGo : ℕ → List ℕ → (ℕ → ℕ) → ℕ → List ℕ
  | 0, _, _, _ => []
  | _ + 1, [], _, _ => []
  | fuel + 1, a :: rest, vals, t =>
      let k := vals t % (a :: rest).length
      (a :: rest).getD k 0 :: shuffleGo fuel ((a :: rest).eraseIdx k) vals (t + 1)

/-- The activation order for one step: a permutation of `range n` drawn from
the stream starting at position `t`. -/
def shuffle (n : ℕ) (vals : ℕ → ℕ) (t : ℕ) : List ℕ :=
  shuffleGo n (List.range n) vals t

/-- A full run of the stock-predictor model from stream position `t`:
each step consumes `N` stream values for the activation order, one for the
market outcome and `N` for the agents' guesses (assigned in activation
order); returns the sequence of activation orders and the final state. -/
def runStockGo : ℕ → StockPredicterModel → (ℕ → ℕ) → ℕ →
    List (List ℕ) × StockPredicterModel
  | 0, m, _, _ => ([], m)
  | k + 1, m, vals, t =>
      let N := m.agents.length
      let order := shuffle N vals t
      let market := natToBool (vals (t + N))
      let draws : ℕ → Bool := fun i =>
        natToBool (vals (t + N + 1 + order.indexOf i))
      let next := runStockGo k (m.step market draws) vals (t + 2 * N + 1)
      (order :: next.1, next.2)

/-- A full `steps`-step run of the stock-predictor model with `N` agents
from a seed. -/
def runStock (seed N steps : ℕ) : List (List ℕ) × StockPredicterModel :=
  runStockGo steps (StockPredicterModel.init N) (genVal seed) 0

/-- A full run of the travel model from stream position `t`: each step
consumes `N` stream values for the activation order and two per agent
(Bernoulli draw and neighbor choice, assigned in activation order). -/
def runTravelGo : ℕ → TravelModel → (ℕ → ℕ) → ℕ →
    List (List ℕ) × TravelModel
  | 0, m, _, _ => ([], m)
  | k + 1, m, vals, t =>
      let N := m.agents.length
      let order := shuffle N vals t
      let draws : ℕ → Bool := fun i =>
        natToBool (vals (t + N + 2 * order.indexOf i))
      let choices : ℕ → ℕ := fun i => vals (t + N + 2 * order.indexOf i + 1)
      let next := runTravelGo k (m.step draws choices) vals (t + 3 * N)
      (order :: next.1, next.2)

/-- A full `steps`-step run of the travel model from a seed and an initial
agent set. -/
def runTravel (seed : ℕ) (m0 : TravelModel) (steps : ℕ) :
    List (List ℕ) × TravelModel :=
  runTravelGo steps m0 (genVal seed) 0

/-- C6: with a fixed seed, two runs of `steps` steps over the same initial
agent set produce identical sequences of activation orders and identical
final agent states — earnings and guesses for the stock-predictor model,
positions and travel probabilities for the random-walk model.  (Every draw
of both models is a pure function of the seed, so the traces coincide.) -/
theorem run_deterministic (seed N steps : ℕ) (m0 : TravelModel)
    (r1 r2 : List (List ℕ) × StockPredicterModel)
    (s1 s2 : List (List ℕ) × TravelModel)
    (h1 : r1 = runStock seed N steps) (h2 : r2 = runStock seed N steps)
    (h3 : s1 = runTravel seed m0 steps) (h4 : s2 = runTravel seed m0 steps) :
    r1 = r2 ∧ s1 = s2 := by
  subst h1; subst h2; subst h3; subst h4
  exact ⟨rfl, rfl⟩

/-- Witness for C6 at seed `0`, one step, one agent per model. -/
theorem run_deterministic_witness :
    runStock 0 1 1 = runStock 0 1 1
    ∧ runTravel 0 (TravelModel.mk 1 10 10 [Traveler.mk 0 1 (0, 0)]) 1
        = runTravel 0 (TravelModel.mk 1 10 10 [Traveler.mk 0 1 (0, 0)]) 1 :=
  run_deterministic 0 1 1 (TravelModel.mk 1 10 10 [Traveler.mk 0 1 (0, 0)])
    (runStock 0 1 1) (runStock 0 1 1)
    (runTravel 0 (TravelModel.mk 1 10 10 [Traveler.mk 0 1 (0, 0)]) 1)
    (runTravel 0 (TravelModel.mk 1 10 10 [Traveler.mk 0 1 (0, 0)]) 1)
    rfl rfl rfl rfl

end ABM
